import Mathlib

/-!
Shallow embedding of the SOFEA dashboard mockup (two near-identical Dash
variants: `src/app.py` and `src/sofea_light_theme_storyboard_render_ready_app.py`;
the routing, projection, detail-lookup and highlight-rotation logic is
line-for-line identical in both, so it is embedded once).

Strings are modelled as `List Char` (`pstr` bridges from Lean string
literals) so that every operation is structurally recursive and
kernel-computable.
-/

/-- Chars of a string literal; paths and names are modelled as `List Char`. -/
def pstr (s : String) : List Char := s.data

/-- One row of the module-level dataframe `DF`.  Columns used by some claim
are kept (`Scientist`, `Award_Year`, `First_Publication_Year`, the four
integer sub-scores `AIS`/`EIS`/`HIS`/`SIS` produced by `.astype(int)`, and
`Field`); the float-valued presentation columns (`SOFEA`, `Capital_M_USD`)
and the remaining count columns, which no claim mentions, are omitted. -/
structure SubjectRecord where
  name : List Char
  awardYear : Int
  firstPublicationYear : Int
  ais : Int
  eis : Int
  his : Int
  sis : Int
  field : List Char
deriving DecidableEq, Repr

/-- The four bucket metric keys (the sortable columns of the bucket pages). -/
inductive MetricKey where
  | AIS
  | EIS
  | HIS
  | SIS
deriving DecidableEq, Repr

/-- Value of the named metric column in a row. -/
def metricValue : MetricKey → SubjectRecord → Int
  | .AIS, r => r.ais
  | .EIS, r => r.eis
  | .HIS, r => r.his
  | .SIS, r => r.sis

/-- Rows tagged with their original (insertion-order) position, as
`DF.sort_values` sees them; `enumFromL n l` is `l` indexed from `n`. -/
def enumFromL (n : Nat) : List SubjectRecord → List (Nat × SubjectRecord)
  | [] => []
  | r :: l => (n, r) :: enumFromL (n + 1) l

/-- Comparison realised by `DF.sort_values(metric_col, ascending=False)` on
indexed rows: pandas `nargsort` reverses the column, takes a stable ascending
argsort (numpy introsort runs plain insertion sort, which is stable, on
arrays below 16 elements — `DF` has 10 rows), and reverses the resulting
indexer; on distinct-index rows this is exactly the linear order
"metric descending, original index ascending". -/
def rowLE (m : MetricKey) (p q : Nat × SubjectRecord) : Prop :=
  metricValue m q.2 < metricValue m p.2 ∨
    (metricValue m p.2 = metricValue m q.2 ∧ p.1 ≤ q.1)

instance (m : MetricKey) : DecidableRel (rowLE m) := fun p q => by
  unfold rowLE; exact inferInstance

instance (m : MetricKey) : IsTotal (Nat × SubjectRecord) (rowLE m) where
  total p q := by unfold rowLE; omega

instance (m : MetricKey) : IsTrans (Nat × SubjectRecord) (rowLE m) where
  trans p q r h1 h2 := by unfold rowLE at h1 h2 ⊢; omega

/-- `DF.sort_values(metric_col, ascending=False)` on indexed rows
(`page_bucket`, both variants). -/
def sort_values_desc (m : MetricKey) (ds : List SubjectRecord) :
    List (Nat × SubjectRecord) :=
  List.insertionSort (rowLE m) (enumFromL 0 ds)

/-- Row order of the bucket-page bar chart:
`px.bar(DF.sort_values(metric_col, ascending=False), x="Scientist", y=metric_col)`. -/
def topByMetric (m : MetricKey) (ds : List SubjectRecord) : List SubjectRecord :=
  (sort_values_desc m ds).map Prod.snd

/-- One row of the bucket-page table projection
`DF[["Scientist","Field","Award_Year",metric_col]]`. -/
structure BucketRow where
  scientist : List Char
  field : List Char
  awardYear : Int
  metricValue : Int
deriving DecidableEq, Repr

/-- Projection of one dataframe row onto the bucket-table columns. -/
def bucketRowOf (m : MetricKey) (r : SubjectRecord) : BucketRow :=
  { scientist := r.name
    field := r.field
    awardYear := r.awardYear
    metricValue := metricValue m r }

/-- Row order of the bucket-page table
(`page_bucket`, both variants): the column projection is applied to the
unsorted `DF`, so the rows stay in insertion order. -/
def bucketTable (m : MetricKey) (ds : List SubjectRecord) : List BucketRow :=
  ds.map (bucketRowOf m)

theorem enumFromL_map_snd (n : Nat) (ds : List SubjectRecord) :
    (enumFromL n ds).map Prod.snd = ds := by
  induction ds generalizing n with
  | nil => rfl
  | cons r l ih => simp [enumFromL, ih]

theorem enumFromL_length (n : Nat) (ds : List SubjectRecord) :
    (enumFromL n ds).length = ds.length := by
  induction ds generalizing n with
  | nil => rfl
  | cons r l ih => simp [enumFromL, ih]

theorem sort_values_desc_perm (m : MetricKey) (ds : List SubjectRecord) :
    (sort_values_desc m ds).Perm (enumFromL 0 ds) :=
  List.perm_insertionSort (rowLE m) (enumFromL 0 ds)

theorem sort_values_desc_pairwise (m : MetricKey) (ds : List SubjectRecord) :
    (sort_values_desc m ds).Pairwise (rowLE m) :=
  List.sorted_insertionSort (rowLE m) (enumFromL 0 ds)

theorem topByMetric_perm (m : MetricKey) (ds : List SubjectRecord) :
    (topByMetric m ds).Perm ds := by
  have h := (sort_values_desc_perm m ds).map Prod.snd
  rwa [enumFromL_map_snd] at h

theorem topByMetric_length (m : MetricKey) (ds : List SubjectRecord) :
    (topByMetric m ds).length = ds.length :=
  (topByMetric_perm m ds).length_eq

theorem topByMetric_sorted (m : MetricKey) (ds : List SubjectRecord) :
    (topByMetric m ds).Pairwise (fun a b => metricValue m b ≤ metricValue m a) := by
  refine (sort_values_desc_pairwise m ds).map Prod.snd ?_
  intro p q h
  unfold rowLE at h
  omega

theorem sort_values_desc_ties (m : MetricKey) (ds : List SubjectRecord) :
    (sort_values_desc m ds).Pairwise
      (fun p q => metricValue m p.2 = metricValue m q.2 → p.1 ≤ q.1) := by
  refine (sort_values_desc_pairwise m ds).imp ?_
  intro p q h
  unfold rowLE at h
  omega

/-- C1: for every metric key, the bucket-page bar-chart projection
`topByMetric` is a permutation of the dataset of the same length, sorted
non-increasingly by that metric, and (on the index-tagged rows it is built
from) ties between equal metric values keep the original insertion order. -/
theorem topByMetric_sorted_stable (m : MetricKey) (ds : List SubjectRecord) :
    (topByMetric m ds).length = ds.length ∧
    (topByMetric m ds).Perm ds ∧
    (topByMetric m ds).Pairwise (fun a b => metricValue m b ≤ metricValue m a) ∧
    (sort_values_desc m ds).Perm (enumFromL 0 ds) ∧
    (sort_values_desc m ds).Pairwise
      (fun p q => metricValue m p.2 = metricValue m q.2 → p.1 ≤ q.1) ∧
    topByMetric m ds = (sort_values_desc m ds).map Prod.snd :=
  ⟨topByMetric_length m ds, topByMetric_perm m ds, topByMetric_sorted m ds,
   sort_values_desc_perm m ds, sort_values_desc_ties m ds, rfl⟩

/-- C2 counterexample dataset, two rows with distinct AIS values whose
insertion order is the opposite of the descending-AIS order. -/
def rowA : SubjectRecord :=
  { name := pstr "A", awardYear := 2020, firstPublicationYear := 2016
    ais := 1, eis := 1, his := 1, sis := 1, field := pstr "Oncology" }

/-- Second C2 counterexample row (larger AIS, inserted after `rowA`). -/
def rowB : SubjectRecord :=
  { name := pstr "B", awardYear := 2021, firstPublicationYear := 2017
    ais := 2, eis := 2, his := 2, sis := 2, field := pstr "Neuroscience" }

/-- C2 counterexample: the bucket-page table is built from the unsorted
`DF[["Scientist","Field","Award_Year",metric_col]]`, so its row order is not
the bar chart's descending order. -/
theorem bucketTable_unsorted_ctrex :
    bucketTable .AIS [rowA, rowB] ≠
      (topByMetric .AIS [rowA, rowB]).map (bucketRowOf .AIS) := by decide

/-- C2 amended: `bucketTable` projects the bucket columns of the rows in the
dataset's original insertion order; it is a permutation (same rows, possibly
different order) of the projected `topByMetric` sequence, of equal length. -/
theorem bucketTable_insertion_order (m : MetricKey) (ds : List SubjectRecord) :
    bucketTable m ds = ds.map (bucketRowOf m) ∧
    (bucketTable m ds).Perm ((topByMetric m ds).map (bucketRowOf m)) ∧
    (bucketTable m ds).length = (topByMetric m ds).length := by
  refine ⟨rfl, ?_, ?_⟩
  · exact ((topByMetric_perm m ds).map (bucketRowOf m)).symm
  · simp [bucketTable, topByMetric_length m ds]

/-- Python `s.startswith(pat)` on char lists (`pat` first). -/
def startsWithL : List Char → List Char → Bool
  | [], _ => true
  | _ :: _, [] => false
  | a :: pat, c :: s => a == c && startsWithL pat s

/-- Scan of Python `s.split(sep)`: left-to-right, non-overlapping matches;
`fuel` bounds the recursion (callers pass `s.length + 1`, which is enough
since every step consumes at least one character). -/
def splitGo (sep : List Char) : Nat → List Char → List Char → List (List Char)
  | 0, _, acc => [acc.reverse]
  | _ + 1, [], acc => [acc.reverse]
  | n + 1, c :: s, acc =>
    if startsWithL sep (c :: s) && !sep.isEmpty then
      acc.reverse :: splitGo sep n (List.drop sep.length (c :: s)) []
    else
      splitGo sep n s (c :: acc)

/-- Python `s.split(sep)` (for non-empty `sep`, the only way it is called). -/
def pySplit (sep s : List Char) : List (List Char) :=
  splitGo sep (s.length + 1) s []

/-- Python `lst[-1]` on the non-empty result of `split`. -/
def pyLast (l : List (List Char)) : List Char :=
  l.getLastD []

/-- Scan of Python `s.replace(pat, rep)`: left-to-right, non-overlapping,
replacing every match; fuel as in `splitGo`. -/
def replGo (pat rep : List Char) : Nat → List Char → List Char
  | 0, s => s
  | _ + 1, [] => []
  | n + 1, c :: s =>
    if startsWithL pat (c :: s) && !pat.isEmpty then
      rep ++ replGo pat rep n (List.drop pat.length (c :: s))
    else
      c :: replGo pat rep n s

/-- Python `s.replace(pat, rep)` (for non-empty `pat`). -/
def pyReplace (pat rep s : List Char) : List Char :=
  replGo pat rep (s.length + 1) s

/-- Whether `pat` occurs as a contiguous sublist of `s`. -/
def containsSub (pat s : List Char) : Bool :=
  s.tails.any (fun t => startsWithL pat t)

/-- The routing prefix `"/detail/"`. -/
def detailSep : List Char := pstr "/detail/"

/-- Name extraction of the `/detail/` route:
`path.split("/detail/")[-1].replace("%20", " ")`. -/
def decodeDetailName (p : List Char) : List Char :=
  pyReplace (pstr "%20") (pstr " ") (pyLast (pySplit detailSep p))

/-- The page selection the `route` callback dispatches on (which page
builder it calls, with which argument). -/
inductive PageSelection where
  | overview
  | bucket (metricKey : MetricKey)
  | explorer
  | detail (subjectName : List Char)
deriving DecidableEq, Repr

/-- The `route(path)` callback's dispatch (identical in both variants):
`None` or `"/"` → overview; a `/detail/` path → detail with the decoded
name; the four metric paths → the bucket pages; `/explorer` → explorer;
anything else falls through to overview. -/
def route (path : Option (List Char)) : PageSelection :=
  match path with
  | none => .overview
  | some p =>
    if p = pstr "/" then .overview
    else if startsWithL detailSep p then .detail (decodeDetailName p)
    else if p = pstr "/ais" then .bucket .AIS
    else if p = pstr "/eis" then .bucket .EIS
    else if p = pstr "/his" then .bucket .HIS
    else if p = pstr "/sis" then .bucket .SIS
    else if p = pstr "/explorer" then .explorer
    else .overview

theorem startsWithL_append (pat r : List Char) :
    startsWithL pat (pat ++ r) = true := by
  induction pat with
  | nil => rfl
  | cons a pat ih => simp [startsWithL, ih]

theorem containsSub_cons (pat : List Char) (c : Char) (s : List Char) :
    containsSub pat (c :: s) = (startsWithL pat (c :: s) || containsSub pat s) := by
  simp [containsSub, List.tails]

theorem splitGo_cons_neg (sep : List Char) (n : Nat) (c : Char) (s acc : List Char)
    (h : startsWithL sep (c :: s) = false) :
    splitGo sep (n + 1) (c :: s) acc = splitGo sep n s (c :: acc) := by
  simp [splitGo, h]

theorem splitGo_cons_pos (sep : List Char) (n : Nat) (c : Char) (s acc : List Char)
    (h : startsWithL sep (c :: s) = true) (hne : sep.isEmpty = false) :
    splitGo sep (n + 1) (c :: s) acc =
      acc.reverse :: splitGo sep n (List.drop sep.length (c :: s)) [] := by
  simp [splitGo, h, hne]

theorem splitGo_no_match (pat : List Char) :
    ∀ s : List Char, containsSub pat s = false →
      ∀ n : Nat, s.length < n → ∀ acc : List Char,
        splitGo pat n s acc = [acc.reverse ++ s] := by
  intro s
  induction s with
  | nil =>
    intro _ n hn acc
    match n, hn with
    | n + 1, _ => simp [splitGo]
  | cons c s ih =>
    intro h n hn acc
    rw [containsSub_cons] at h
    simp only [Bool.or_eq_false_iff] at h
    match n, hn with
    | n + 1, hn =>
      rw [splitGo_cons_neg pat n c s acc h.1]
      rw [ih h.2 n (by simpa using hn) (c :: acc)]
      simp

theorem splitGo_at_sep (pat rest : List Char) (hp : pat ≠ [])
    (h : containsSub pat rest = false) (n : Nat) (hn : rest.length < n) :
    splitGo pat (n + 1) (pat ++ rest) [] = [[], rest] := by
  match pat, hp with
  | a :: pat, _ =>
    have hsw : startsWithL (a :: pat) (a :: (pat ++ rest)) = true := by
      have := startsWithL_append (a :: pat) rest
      simpa using this
    rw [List.cons_append, splitGo_cons_pos (a :: pat) n a (pat ++ rest) [] hsw rfl,
      ← List.cons_append, List.drop_left]
    rw [splitGo_no_match (a :: pat) rest h n hn []]
    rfl

theorem pySplit_at_sep (rest : List Char) (h : containsSub detailSep rest = false) :
    pySplit detailSep (detailSep ++ rest) = [[], rest] := by
  have h8 : detailSep.length = 8 := by decide
  have hlen : (detailSep ++ rest).length + 1 = (detailSep.length + rest.length) + 1 := by
    simp
  rw [pySplit, hlen]
  exact splitGo_at_sep detailSep rest (by decide) h
    (detailSep.length + rest.length) (by omega)

/-- C3 amended: on every path `"/detail/" ++ rest` whose remainder contains
no further occurrence of `"/detail/"`, `route` yields the detail selection
with the remainder percent-decoded by replacing every `%20` with a space
(in general the code keeps only the segment after the last scan match of
`"/detail/"`, i.e. `path.split("/detail/")[-1]`); in particular
`/detail/Dr.%20Sarah%20Chen` resolves to Detail "Dr. Sarah Chen". -/
theorem route_detail_after_last (rest : List Char)
    (h : containsSub detailSep rest = false) :
    route (some (detailSep ++ rest)) =
      .detail (pyReplace (pstr "%20") (pstr " ") rest) ∧
    route (some (pstr "/detail/Dr.%20Sarah%20Chen")) =
      .detail (pstr "Dr. Sarah Chen") := by
  constructor
  · have hslash : ¬(detailSep ++ rest = pstr "/") := by
      intro hcontra
      have := congrArg List.length hcontra
      have h8 : detailSep.length = 8 := by decide
      simp [pstr] at this
      omega
    rw [route, if_neg hslash, if_pos (startsWithL_append detailSep rest)]
    rw [decodeDetailName, pySplit_at_sep rest h]
    rfl
  · decide

/-- C3 witness: the claim's own example discharges the no-further-occurrence
hypothesis. -/
theorem route_detail_after_last_witness :
    containsSub detailSep (pstr "Dr.%20Sarah%20Chen") = false ∧
    route (some (detailSep ++ pstr "Dr.%20Sarah%20Chen")) =
      .detail (pyReplace (pstr "%20") (pstr " ") (pstr "Dr.%20Sarah%20Chen")) :=
  ⟨by decide, (route_detail_after_last (pstr "Dr.%20Sarah%20Chen") (by decide)).1⟩

/-- Name extraction exactly as claim C3 states it: the remainder of the path
after the `"/detail/"` prefix, with every `%20` replaced by a space. -/
def claimedDetailName (p : List Char) : List Char :=
  pyReplace (pstr "%20") (pstr " ") (List.drop detailSep.length p)

/-- C3 counterexample: on `/detail/a/detail/b` — a path that begins with
`/detail/` — the code takes the segment after the *last* `/detail/` match
(`"b"`), not the remainder after the prefix (`"a/detail/b"`) the claim
demands. -/
theorem route_detail_ctrex :
    startsWithL detailSep (pstr "/detail/a/detail/b") = true ∧
    claimedDetailName (pstr "/detail/a/detail/b") = pstr "a/detail/b" ∧
    route (some (pstr "/detail/a/detail/b")) = .detail (pstr "b") ∧
    pstr "b" ≠ pstr "a/detail/b" := by decide

/-- C4: `route` maps `/`, the empty path, a missing path (`None`), and every
path matching none of the known patterns to the overview selection; it is a
total function into `PageSelection`, which has no error variant, so an
unrecognized path never produces an error result. -/
theorem route_fallback_overview (p : List Char)
    (h1 : p ≠ pstr "/") (h2 : startsWithL detailSep p = false)
    (h3 : p ≠ pstr "/ais") (h4 : p ≠ pstr "/eis") (h5 : p ≠ pstr "/his")
    (h6 : p ≠ pstr "/sis") (h7 : p ≠ pstr "/explorer") :
    route (some p) = .overview ∧
    route (some (pstr "/")) = .overview ∧
    route (some (pstr "")) = .overview ∧
    route (some (pstr "/nonsense")) = .overview ∧
    route none = .overview := by
  refine ⟨?_, by decide, by decide, by decide, rfl⟩
  simp [route, h1, h2, h3, h4, h5, h6, h7]

/-- C4 witness: the fallback at the concrete unknown path `/nonsense`. -/
theorem route_fallback_overview_witness :
    pstr "/nonsense" ≠ pstr "/" ∧ route (some (pstr "/nonsense")) = .overview :=
  ⟨by decide, (route_fallback_overview (pstr "/nonsense") (by decide) (by decide)
    (by decide) (by decide) (by decide) (by decide) (by decide)).1⟩

/-- One entry of a plotly bar-click payload's `points` array (only the
category label `x` is read). -/
structure ClickPoint where
  x : List Char
deriving DecidableEq, Repr

/-- A plotly chart-click payload `{points: [...]}`. -/
structure ClickData where
  points : List ClickPoint
deriving DecidableEq, Repr

/-- Name extraction of the `bar_click` callback, `cd["points"][0]["x"]`
(Python raises `IndexError` on an empty points list; `none` models that no
name is produced there). -/
def clickToSubject (cd : ClickData) : Option (List Char) :=
  match cd.points with
  | [] => none
  | p :: _ => some p.x

/-- Navigation target built by `bar_click`: `f"/detail/{name}"` — the raw
name is embedded without URL-encoding. -/
def barClickHref (name : List Char) : List Char :=
  pstr "/detail/" ++ name

/-- The fixed bar-category labels: the module-level `SCIENTISTS` list
(identical in both variants). -/
def SCIENTISTS : List (List Char) :=
  [pstr "Dr. Sarah Chen", pstr "Dr. Emily Johnson", pstr "Dr. James Washington",
   pstr "Dr. Diego Rossi", pstr "Dr. Elena Park", pstr "Dr. Farah Khan",
   pstr "Dr. Miguel Alvarez", pstr "Dr. Priya Sharma", pstr "Dr. Noah Lee",
   pstr "Dr. Lila Patel"]

/-- A path string is space-encoded iff it contains no raw space character.
The space encoding `%20` is the only percent-encoding the dashboard handles,
so a syntactically valid encoded `/detail/` target for these names must be
space-free. -/
def spaceEncoded (s : List Char) : Bool :=
  !(s.any (fun c => c == ' '))

/-- C5 counterexample: the click handler extracts the name, but the
navigation target embeds it with raw spaces — it is not an encoded path. -/
theorem bar_click_unencoded_ctrex :
    clickToSubject ⟨[⟨pstr "Dr. Emily Johnson"⟩]⟩ = some (pstr "Dr. Emily Johnson") ∧
    barClickHref (pstr "Dr. Emily Johnson") = pstr "/detail/Dr. Emily Johnson" ∧
    spaceEncoded (barClickHref (pstr "Dr. Emily Johnson")) = false := by decide

/-- C5 amended: for each of the ten bar labels, `clickToSubject` yields
exactly the clicked name and the (unencoded) `/detail/` target still
round-trips through `route` to the detail selection with the identical
name. -/
theorem bar_click_round_trip (name : List Char) (h : name ∈ SCIENTISTS) :
    clickToSubject ⟨[⟨name⟩]⟩ = some name ∧
    route (some (barClickHref name)) = .detail name := by
  refine ⟨rfl, ?_⟩
  fin_cases h <;> decide

/-- C5 witness: the round trip at Dr. Emily Johnson. -/
theorem bar_click_round_trip_witness :
    pstr "Dr. Emily Johnson" ∈ SCIENTISTS ∧
    route (some (barClickHref (pstr "Dr. Emily Johnson"))) =
      .detail (pstr "Dr. Emily Johnson") :=
  ⟨by decide, (bar_click_round_trip (pstr "Dr. Emily Johnson") (by decide)).2⟩

/-- Outcome of `page_detail`'s row lookup. -/
inductive DetailResult where
  | notFound
  | found (r : SubjectRecord)
deriving DecidableEq, Repr

/-- `page_detail`'s lookup (both variants):
`row = DF[DF["Scientist"] == scientist]` keeps the matching rows in order;
an empty selection renders the inline "Scientist not found" message,
otherwise `r = row.iloc[0]` — the first match — is used. -/
def subjectDetail (ds : List SubjectRecord) (scientist : List Char) : DetailResult :=
  match ds.filter (fun r => r.name == scientist) with
  | [] => .notFound
  | r :: _ => .found r

/-- C6: `subjectDetail` looks up by exact name match; with no matching record
it returns the structured `notFound` result (a value, not an exception, and
distinct from every success value), and with a matching record it succeeds
with a record of that exact name. -/
theorem subjectDetail_total_lookup (ds : List SubjectRecord) (scientist : List Char) :
    ((∀ r ∈ ds, r.name ≠ scientist) → subjectDetail ds scientist = .notFound) ∧
    ((∃ r ∈ ds, r.name = scientist) →
      ∃ r, subjectDetail ds scientist = .found r ∧ r ∈ ds ∧ r.name = scientist) ∧
    (∀ r, (DetailResult.notFound : DetailResult) ≠ .found r) := by
  refine ⟨?_, ?_, ?_⟩
  · intro h
    have hf : ds.filter (fun r => r.name == scientist) = [] := by
      rw [List.filter_eq_nil_iff]
      intro r hr
      simpa using h r hr
    simp [subjectDetail, hf]
  · rintro ⟨r0, hr0, hname⟩
    rcases hfe : ds.filter (fun r => r.name == scientist) with _ | ⟨r, rest⟩
    · exfalso
      have hmem : r0 ∈ ds.filter (fun r => r.name == scientist) := by
        rw [List.mem_filter]
        exact ⟨hr0, by simpa using hname⟩
      rw [hfe] at hmem
      simp at hmem
    · have hr : r ∈ ds.filter (fun r => r.name == scientist) := by
        rw [hfe]; exact List.mem_cons_self r rest
      rw [List.mem_filter] at hr
      exact ⟨r, by simp [subjectDetail, hfe], hr.1, by simpa using hr.2⟩
  · intro r hcontra
    exact DetailResult.noConfusion hcontra

/-- C6 witness: the lookup of "Does Not Exist" in a dataset that lacks it. -/
theorem subjectDetail_total_lookup_witness :
    (∀ r ∈ [rowA], r.name ≠ pstr "Does Not Exist") ∧
    subjectDetail [rowA] (pstr "Does Not Exist") = .notFound :=
  ⟨by decide, (subjectDetail_total_lookup [rowA] (pstr "Does Not Exist")).1 (by decide)⟩

/-- `page_detail`'s bucket-breakdown series (both variants):
`{"Bucket": ["AIS","EIS","HIS","SIS"], "Score": [r["AIS"], r["EIS"], r["HIS"], r["SIS"]]}`. -/
def bucketBreakdown (r : SubjectRecord) : List (MetricKey × Int) :=
  [(.AIS, r.ais), (.EIS, r.eis), (.HIS, r.his), (.SIS, r.sis)]

/-- C7: for a found record, the bucket-breakdown series is the four
(key, sub-score) pairs in the fixed order AIS, EIS, HIS, SIS, each value
being the matched record's corresponding metric. -/
theorem bucketBreakdown_fixed_order (ds : List SubjectRecord) (scientist : List Char)
    (r : SubjectRecord) (_h : subjectDetail ds scientist = .found r) :
    bucketBreakdown r =
      [MetricKey.AIS, MetricKey.EIS, MetricKey.HIS, MetricKey.SIS].map
        (fun k => (k, metricValue k r)) ∧
    (bucketBreakdown r).map Prod.fst =
      [MetricKey.AIS, MetricKey.EIS, MetricKey.HIS, MetricKey.SIS] :=
  ⟨rfl, rfl⟩

/-- C7 witness: the breakdown of the record found for name "A". -/
theorem bucketBreakdown_fixed_order_witness :
    subjectDetail [rowA] (pstr "A") = .found rowA ∧
    bucketBreakdown rowA =
      [MetricKey.AIS, MetricKey.EIS, MetricKey.HIS, MetricKey.SIS].map
        (fun k => (k, metricValue k rowA)) :=
  ⟨by decide, (bucketBreakdown_fixed_order [rowA] (pstr "A") rowA (by decide)).1⟩

/-- The fixed highlight list of the light-theme overview page
(`IMPACT_HIGHLIGHTS`). -/
def IMPACT_HIGHLIGHTS : List (List Char) :=
  [pstr "1,245 awardees supported",
   pstr "$1.2B capital raised",
   pstr "6 FDA‑approved therapies",
   pstr "78% above national oRCR",
   pstr "42% in leadership roles"]

/-- One tick of the `rotate_highlights` callback: the stored index advances
by one modulo the highlight-list length (`i = (idx + 1) % len(IMPACT_HIGHLIGHTS)`). -/
def rotate_highlights (idx : Nat) : Nat :=
  (idx + 1) % IMPACT_HIGHLIGHTS.length

/-- Stored highlight index after `k` ticks, starting from the initial store
value 0 (`dcc.Store(id="hi-index", data=0)`). -/
def highlightIndexAfter : Nat → Nat
  | 0 => 0
  | k + 1 => rotate_highlights (highlightIndexAfter k)

/-- C9: the rotation counter starts at 0, equals `k mod n` after `k` ticks
over the `n = 5` highlights, closes its cycle after exactly `n` ticks (the
displayed highlight equals the one for 0 ticks), and has no terminal state
(the index stays in range and the behaviour is periodic forever). -/
theorem rotate_highlights_cycle (k : Nat) :
    IMPACT_HIGHLIGHTS.length = 5 ∧
    highlightIndexAfter 0 = 0 ∧
    highlightIndexAfter k = k % IMPACT_HIGHLIGHTS.length ∧
    highlightIndexAfter k < IMPACT_HIGHLIGHTS.length ∧
    highlightIndexAfter (k + IMPACT_HIGHLIGHTS.length) = highlightIndexAfter k ∧
    IMPACT_HIGHLIGHTS.get? (highlightIndexAfter IMPACT_HIGHLIGHTS.length) =
      IMPACT_HIGHLIGHTS.get? (highlightIndexAfter 0) := by
  have hlen : IMPACT_HIGHLIGHTS.length = 5 := by decide
  have hmod : ∀ j, highlightIndexAfter j = j % IMPACT_HIGHLIGHTS.length := by
    intro j
    induction j with
    | zero => simp [highlightIndexAfter]
    | succ j ih =>
      rw [highlightIndexAfter, rotate_highlights, ih, hlen]
      omega
  refine ⟨hlen, rfl, hmod k, ?_, ?_, ?_⟩
  · rw [hmod k, hlen]; omega
  · rw [hmod (k + IMPACT_HIGHLIGHTS.length), hmod k, hlen]; omega
  · rw [hmod IMPACT_HIGHLIGHTS.length, hlen]; rfl

/-- Process-wide numpy generator, abstracted to the number of variates drawn
from it so far; each `np.random.*(..., size=n)` call advances it by `n`. -/
structure RngState where
  draws : Nat
deriving DecidableEq, Repr

/-- Draw `n` variates from the process-wide generator. -/
def drawMany (n : Nat) (s : RngState) : RngState :=
  { draws := s.draws + n }

/-- Length of `page_detail`'s mock-timeline year range
`range(int(r["First_Publication_Year"]), int(r["Award_Year"]) + 4)`. -/
def tyearsLen (r : SubjectRecord) : Nat :=
  (r.awardYear + 4 - r.firstPublicationYear).toNat

/-- RNG effect of `page_detail` (both variants): nothing when the scientist
is unknown (the function returns before any draw); for a found row it runs
`np.random.poisson(1.2, len(tyears))`, `np.random.poisson(0.6, len(tyears))`
and `np.random.uniform(0.8, 4.1, 5)` on the shared generator. -/
def page_detail_rng (ds : List SubjectRecord) (scientist : List Char)
    (s : RngState) : RngState :=
  match subjectDetail ds scientist with
  | .notFound => s
  | .found r => drawMany 5 (drawMany (tyearsLen r) (drawMany (tyearsLen r) s))

/-- The `route` callback with the process-wide RNG state threaded through:
of the page builders it dispatches to, only `page_detail` draws from the
generator at render time. -/
def routeRender (ds : List SubjectRecord) (path : Option (List Char))
    (s : RngState) : PageSelection × RngState :=
  match route path with
  | .detail scientist => (.detail scientist, page_detail_rng ds scientist s)
  | sel => (sel, s)

/-- Hypothetical dataframe row for Dr. Sarah Chen: the generated numeric
columns of `DF` depend on the seeded generator, but any found row triggers
the detail page's draws (at least the 5 `np.random.uniform` variates). -/
def chenRow : SubjectRecord :=
  { name := pstr "Dr. Sarah Chen", awardYear := 2019, firstPublicationYear := 2015
    ais := 30, eis := 15, his := 20, sis := 9, field := pstr "Oncology" }

/-- C10 counterexample: resolving a path to a found scientist's detail page
advances the process-wide RNG state (here 8 + 8 + 5 = 21 variates), so
resolution is not free of side effects on shared state. -/
theorem route_rng_side_effect_ctrex :
    (routeRender [chenRow] (some (pstr "/detail/Dr.%20Sarah%20Chen")) ⟨0⟩).2 = ⟨21⟩ ∧
    (⟨21⟩ : RngState) ≠ ⟨0⟩ := by decide

/-- C10 amended: the resolved selection is a pure deterministic function of
the path alone — independent of the RNG state and of any prior invocation
(navigation history) — but resolution is side-effect free only on paths that
do not select a detail page. -/
theorem route_selection_pure (ds : List SubjectRecord) (path : Option (List Char))
    (s t : RngState) :
    (routeRender ds path s).1 = route path ∧
    (routeRender ds path s).1 = (routeRender ds path t).1 ∧
    (routeRender ds path ((routeRender ds path s).2)).1 = (routeRender ds path s).1 ∧
    ((∀ scientist, route path ≠ .detail scientist) → (routeRender ds path s).2 = s) := by
  rcases hr : route path with _ | k | _ | name
  all_goals refine ⟨by simp [routeRender, hr], by simp [routeRender, hr],
    by simp [routeRender, hr], ?_⟩
  · intro _; simp [routeRender, hr]
  · intro _; simp [routeRender, hr]
  · intro _; simp [routeRender, hr]
  · intro hnone; exact absurd rfl (hnone name)

/-- C10 witness: at the non-detail path `/ais` the selection is computed and
the RNG state is untouched. -/
theorem route_selection_pure_witness :
    (∀ scientist, route (some (pstr "/ais")) ≠ .detail scientist) ∧
    (routeRender [] (some (pstr "/ais")) ⟨0⟩).2 = ⟨0⟩ := by
  have hais : route (some (pstr "/ais")) = .bucket .AIS := by decide
  have hno : ∀ scientist, route (some (pstr "/ais")) ≠ .detail scientist := by
    intro scientist hcontra
    rw [hais] at hcontra
    exact PageSelection.noConfusion hcontra
  exact ⟨hno, (route_selection_pure [] (some (pstr "/ais")) ⟨0⟩ ⟨0⟩).2.2.2 hno⟩
